import Mathlib

/-!
Verification of the quantization subsystem of the `Dense` layer
(`src/keras/src/layers/core/dense.py`): int8/int4 abs-max quantization,
4-bit nibble packing, float8 rescaling state, LoRA overlay, and the
variable save/load contract.

The layer code itself is embedded from the source file.  The helper
functions from the `keras.src.quantizers` module (`pack_int4`,
`unpack_int4`, `abs_max_quantize`, `AbsMaxQuantizer`,
`compute_float8_scale`, `compute_float8_amax_history`,
`quantize_and_dequantize`) are not part of the given sources, so they are
modelled from the specification text, as marked in their doc comments.

Tensors are embedded as `List (List _)` (matrices, row-major), vectors as
`List _`, and floating-point values as exact rationals `ℚ`.
-/

namespace KerasDense

/-! ## NibblePacker (modelled from the spec, §4.2) -/

/-- Modelled from the spec: two's-complement 4-bit encoding of one byte
holding `v0` in the low nibble and `v1` in the high nibble
(`keras.src.quantizers.pack_int4` is not under `src/`).  The byte is
reported as a signed 8-bit integer. -/
def packPair (v0 v1 : Int) : Int :=
  if (v1 % 16) * 16 + v0 % 16 < 128 then (v1 % 16) * 16 + v0 % 16
  else (v1 % 16) * 16 + v0 % 16 - 256

/-- Modelled from the spec: sign-extend the low nibble of a signed byte
back to a signed integer. -/
def lowNibble (b : Int) : Int :=
  if b % 256 % 16 < 8 then b % 256 % 16 else b % 256 % 16 - 16

/-- Modelled from the spec: sign-extend the high nibble of a signed byte
back to a signed integer. -/
def highNibble (b : Int) : Int :=
  if b % 256 / 16 < 8 then b % 256 / 16 else b % 256 / 16 - 16

/-- Modelled from the spec: `pack(int8_tensor_with_values_in[-8,7])`.
For each pair of rows along the packed axis (axis 0), store row `2k` in
the low nibble and row `2k+1` in the high nibble of one byte; an odd
final row is packed against a zero-filled partner. -/
def pack_int4 : List (List Int) → List (List Int)
  | [] => []
  | [r] => [r.map (fun v => packPair v 0)]
  | r0 :: r1 :: rest => List.zipWith packPair r0 r1 :: pack_int4 rest

/-- Unpack every packed row into its two nibble rows (low first). -/
def unpackAll : List (List Int) → List (List Int)
  | [] => []
  | b :: rest => b.map lowNibble :: b.map highNibble :: unpackAll rest

/-- Modelled from the spec: `unpack(packed_tensor, original_row_count)`
sign-extends each nibble and truncates to `original_row_count` rows. -/
def unpack_int4 (p : List (List Int)) (origRows : Nat) : List (List Int) :=
  (unpackAll p).take origRows

theorem lowNibble_packPair (v0 v1 : Int)
    (h0 : -8 ≤ v0 ∧ v0 ≤ 7) (h1 : -8 ≤ v1 ∧ v1 ≤ 7) :
    lowNibble (packPair v0 v1) = v0 := by
  simp only [packPair, lowNibble]
  split_ifs <;> omega

theorem highNibble_packPair (v0 v1 : Int)
    (h0 : -8 ≤ v0 ∧ v0 ≤ 7) (h1 : -8 ≤ v1 ∧ v1 ≤ 7) :
    highNibble (packPair v0 v1) = v1 := by
  simp only [packPair, highNibble]
  split_ifs <;> omega

theorem map_lowNibble_zipWith (r0 r1 : List Int) (hlen : r0.length = r1.length)
    (h0 : ∀ v ∈ r0, -8 ≤ v ∧ v ≤ 7) (h1 : ∀ v ∈ r1, -8 ≤ v ∧ v ≤ 7) :
    (List.zipWith packPair r0 r1).map lowNibble = r0 := by
  induction r0 generalizing r1 with
  | nil => simp
  | cons a t ih =>
    cases r1 with
    | nil => simp at hlen
    | cons b t1 =>
      simp only [List.zipWith_cons_cons, List.map_cons, List.cons.injEq]
      refine ⟨lowNibble_packPair a b (h0 a (by simp)) (h1 b (by simp)), ?_⟩
      exact ih t1 (by simpa using hlen)
        (fun v hv => h0 v (List.mem_cons_of_mem _ hv))
        (fun v hv => h1 v (List.mem_cons_of_mem _ hv))

theorem map_highNibble_zipWith (r0 r1 : List Int) (hlen : r0.length = r1.length)
    (h0 : ∀ v ∈ r0, -8 ≤ v ∧ v ≤ 7) (h1 : ∀ v ∈ r1, -8 ≤ v ∧ v ≤ 7) :
    (List.zipWith packPair r0 r1).map highNibble = r1 := by
  induction r0 generalizing r1 with
  | nil => cases r1 with
    | nil => simp
    | cons b t1 => simp at hlen
  | cons a t ih =>
    cases r1 with
    | nil => simp at hlen
    | cons b t1 =>
      simp only [List.zipWith_cons_cons, List.map_cons, List.cons.injEq]
      refine ⟨highNibble_packPair a b (h0 a (by simp)) (h1 b (by simp)), ?_⟩
      exact ih t1 (by simpa using hlen)
        (fun v hv => h0 v (List.mem_cons_of_mem _ hv))
        (fun v hv => h1 v (List.mem_cons_of_mem _ hv))

theorem map_lowNibble_pack_single (r : List Int)
    (h : ∀ v ∈ r, -8 ≤ v ∧ v ≤ 7) :
    (r.map (fun v => packPair v 0)).map lowNibble = r := by
  induction r with
  | nil => simp
  | cons a t ih =>
    simp only [List.map_cons, List.cons.injEq]
    exact ⟨lowNibble_packPair a 0 (h a (by simp)) (by omega),
      ih (fun v hv => h v (List.mem_cons_of_mem _ hv))⟩

theorem unpack_pack_aux (m : Nat) :
    ∀ (x : List (List Int)),
      (∀ r ∈ x, r.length = m) →
      (∀ r ∈ x, ∀ v ∈ r, -8 ≤ v ∧ v ≤ 7) →
      unpack_int4 (pack_int4 x) x.length = x
  | [], _, _ => by simp [unpack_int4, pack_int4, unpackAll]
  | [r], hrect, hrange => by
    simp only [unpack_int4, pack_int4, unpackAll, List.length_cons,
      List.length_nil, List.take_succ_cons, List.take_zero]
    simp only [List.cons.injEq, and_true]
    exact map_lowNibble_pack_single r (hrange r (by simp))
  | r0 :: r1 :: rest, hrect, hrange => by
    have hlen : r0.length = r1.length := by
      rw [hrect r0 (by simp), hrect r1 (by simp)]
    have ih := unpack_pack_aux m rest
      (fun r hr => hrect r (by simp [hr]))
      (fun r hr => hrange r (by simp [hr]))
    simp only [unpack_int4, pack_int4, unpackAll, List.length_cons,
      List.take_succ_cons, List.cons.injEq] at ih ⊢
    refine ⟨map_lowNibble_zipWith r0 r1 hlen (hrange r0 (by simp))
      (hrange r1 (by simp)), map_highNibble_zipWith r0 r1 hlen
      (hrange r0 (by simp)) (hrange r1 (by simp)), ih⟩

/-! ## Matrix helpers (`ops.matmul`, `ops.add`, broadcasts over lists) -/

/-- Number of columns of a row-major matrix (length of the first row). -/
def ncols {α : Type} (M : List (List α)) : Nat := (M.head?.getD []).length

/-- Entry `j` of a row, `0` out of range (used for column access). -/
def entry (r : List ℚ) (j : Nat) : ℚ := r.getD j 0

/-- `ops.matmul` on row-major rational matrices. -/
def matmul (A B : List (List ℚ)) : List (List ℚ) :=
  A.map (fun row =>
    (List.range (ncols B)).map (fun j =>
      (List.zipWith (fun a brow => a * entry brow j) row B).sum))

/-- Elementwise matrix addition (`ops.add` on same-shape operands). -/
def addM (A B : List (List ℚ)) : List (List ℚ) :=
  List.zipWith (List.zipWith (· + ·)) A B

/-- Scalar multiple of a matrix. -/
def smulM (c : ℚ) (A : List (List ℚ)) : List (List ℚ) :=
  A.map (fun row => row.map (fun x => c * x))

/-- All-zero `m × n` rational matrix. -/
def zerosM (m n : Nat) : List (List ℚ) :=
  List.replicate m (List.replicate n 0)

/-- All-zero `m × n` integer matrix (a zero-initialized int8 buffer). -/
def zerosZ (m n : Nat) : List (List Int) :=
  List.replicate m (List.replicate n 0)

/-- Cast an integer matrix to a rational matrix (`ops.cast` to float). -/
def castM (M : List (List Int)) : List (List ℚ) :=
  M.map (fun row => row.map (fun (v : Int) => (v : ℚ)))

theorem entry_replicate_zero (n j : Nat) :
    entry (List.replicate n (0:ℚ)) j = 0 := by
  induction n generalizing j with
  | zero => simp [entry]
  | succ k ih =>
    cases j with
    | zero => simp [entry, List.replicate_succ]
    | succ j' =>
      simp only [entry, List.replicate_succ, List.getD_cons_succ]
      exact ih j'

theorem matmul_length (A B : List (List ℚ)) : (matmul A B).length = A.length := by
  simp [matmul]

theorem matmul_row_length (A B : List (List ℚ)) :
    ∀ r ∈ matmul A B, r.length = ncols B := by
  intro r hr
  simp only [matmul, List.mem_map] at hr
  obtain ⟨row, _, hrow⟩ := hr
  simp [← hrow]

theorem matmul_zerosM (A : List (List ℚ)) (m n : Nat) :
    matmul A (zerosM m n) = zerosM A.length (ncols (zerosM m n)) := by
  simp only [matmul, zerosM]
  induction A with
  | nil => simp
  | cons r t ih =>
    simp only [List.map_cons, List.replicate_succ, List.length_cons,
      List.cons.injEq] at ih ⊢
    refine ⟨?_, ih⟩
    refine List.eq_replicate_iff.mpr ⟨by simp, ?_⟩
    intro x hx
    simp only [List.mem_map, List.mem_range] at hx
    obtain ⟨j, _, hj⟩ := hx
    rw [← hj]
    have hsum : ∀ (u : List ℚ) (k : Nat),
        (List.zipWith (fun a brow => a * entry brow j)
          u (List.replicate k (List.replicate n (0:ℚ)))).sum = 0 := by
      intro u k
      induction u generalizing k with
      | nil => simp
      | cons a ta ihu =>
        cases k with
        | zero => simp
        | succ k' =>
          simp only [List.replicate_succ, List.zipWith_cons_cons, List.sum_cons]
          rw [ihu k', entry_replicate_zero]
          simp
    exact hsum r m

theorem addM_zeros (A : List (List ℚ)) (n : Nat)
    (hrect : ∀ r ∈ A, r.length = n) :
    addM A (zerosM A.length n) = A := by
  induction A with
  | nil => simp [addM, zerosM]
  | cons r t ih =>
    simp only [addM, zerosM, List.length_cons, List.replicate_succ,
      List.zipWith_cons_cons, List.cons.injEq] at ih ⊢
    constructor
    · have hr : r.length = n := hrect r (by simp)
      subst hr
      clear ih hrect
      induction r with
      | nil => simp
      | cons a ta ihr =>
        simp only [List.length_cons, List.replicate_succ,
          List.zipWith_cons_cons, add_zero, List.cons.injEq, true_and]
        exact ihr
    · exact ih (fun r hr => hrect r (by simp [hr]))

/-! ## ScaleQuantizer (modelled from the spec, §4.1)

`keras.src.quantizers.abs_max_quantize` and `AbsMaxQuantizer` are not under
`src/`; the definitions below follow the specification text. -/

/-- Maximum absolute value of a vector (`0` for the empty vector). -/
def absMaxVec (v : List ℚ) : ℚ := (v.map (fun x => |x|)).foldr max 0

/-- Modelled from the spec: `scale = value_range_max / max_abs`
(`scale = 1` when `max_abs` is `0`, to avoid division by zero). -/
def scaleOf (rangeMax maxAbs : ℚ) : ℚ :=
  if maxAbs = 0 then 1 else rangeMax / maxAbs

/-- Modelled from the spec: quantized value
`round(tensor * scale)` clamped to `value_range`, cast to integer. -/
def quantizeVal (scale : ℚ) (lo hi : Int) (x : ℚ) : Int :=
  max lo (min hi (round (x * scale)))

/-- Column `j` of a row-major matrix. -/
def column (W : List (List ℚ)) (j : Nat) : List ℚ := W.map (fun r => entry r j)

/-- Modelled from the spec:
`quantize(tensor, axis, value_range, dtype) -> (quantized, scale)` along
`axis = 0`: per output column, scale from the column's maximum absolute
value, then round-clamp every entry (this is the call made by
`Dense.quantize`, returning one scale per output unit). -/
def abs_max_quantize (W : List (List ℚ)) (lo hi : Int) :
    List (List Int) × List ℚ :=
  let scales := (List.range (ncols W)).map
    (fun j => scaleOf hi (absMaxVec (column W j)))
  (W.map (fun r => (List.range (ncols W)).map
      (fun j => quantizeVal (scales.getD j 1) lo hi (entry r j))),
   scales)

/-- Modelled from the spec: per-row abs-max int8 quantization of the inputs
(`AbsMaxQuantizer(axis=-1)` with the default signed-8-bit value range). -/
def absMaxQuantizeRow (v : List ℚ) : List Int × ℚ :=
  let s := scaleOf 127 (absMaxVec v)
  (v.map (quantizeVal s (-127) 127), s)

/-- Modelled from the spec: `dequantize(quantized_tensor, scale)` is
`cast(quantized_tensor, float) / scale`; with a per-output-channel scale
vector the division broadcasts along each row. -/
def dequantize (Q : List (List Int)) (scale : List ℚ) : List (List ℚ) :=
  Q.map (fun row => List.zipWith (fun (v : Int) s => (v : ℚ) / s) row scale)

theorem absMaxVec_replicate_zero (m : Nat) :
    absMaxVec (List.replicate m (0:ℚ)) = 0 := by
  induction m with
  | zero => simp [absMaxVec]
  | succ k ih =>
    simp only [absMaxVec, List.replicate_succ, List.map_cons,
      List.foldr_cons, abs_zero] at ih ⊢
    rw [ih]
    simp

theorem column_zerosM (m n j : Nat) :
    column (zerosM m n) j = List.replicate m 0 := by
  simp only [column, zerosM, List.map_replicate, entry_replicate_zero]

/-! ## Float8 rescaling helpers (modelled from the spec, §4.4)

`compute_float8_scale`, `compute_float8_amax_history` and
`quantize_and_dequantize` live in `keras.src.quantizers`, not under
`src/`. -/

/-- Maximum absolute value of a matrix. -/
def absMaxM (t : List (List ℚ)) : ℚ := (t.map absMaxVec).foldr max 0

/-- Maximum of a history buffer (`ops.max(amax_history, axis=0)`). -/
def maxOfHist (hist : List ℚ) : ℚ := hist.foldr max 0

/-- Modelled from the spec: `compute_scale(history_max, scale, format_max)`
is `format_max / max(current_history_max, epsilon)`. -/
def compute_float8_scale (amaxMax scale formatMax : ℚ) : ℚ :=
  formatMax / max amaxMax (1 / 100000)

/-- Modelled from the spec: `compute_amax_history(tensor, previous)`
shifts the history window and inserts the tensor's absolute maximum. -/
def compute_float8_amax_history (t : List (List ℚ)) (hist : List ℚ) : List ℚ :=
  absMaxM t :: hist.dropLast

/-- Modelled from the spec: quantize-dequantize through float8 precision.
The float8 rounding itself is not representable in the exact rational
embedding and no claim under verification depends on the rounded values,
so the value is passed through; only the state effects are modelled. -/
def quantize_and_dequantize (x _scale : ℚ) : ℚ := x

/-- `ml_dtypes.finfo("float8_e4m3fn").max`. -/
def float8_e4m3_max : ℚ := 448

/-- `ml_dtypes.finfo("float8_e5m2").max`. -/
def float8_e5m2_max : ℚ := 57344

/-! ## The Dense layer state (`Dense`, `src/keras/src/layers/core/dense.py`) -/

/-- A quantization mode held by the dtype policy (`self.quantization_mode`
when quantized). -/
inductive QMode | int8 | int4 | float8
deriving DecidableEq, Repr

/-- The six float8 rescaling buffers allocated by `Dense._float8_build`. -/
structure Float8State where
  inputs_scale : ℚ
  inputs_amax_history : List ℚ
  kernel_scale : ℚ
  kernel_amax_history : List ℚ
  outputs_grad_scale : ℚ
  outputs_grad_amax_history : List ℚ
deriving DecidableEq, Repr

/-- The mutable state of one `Dense` layer: configuration flags plus the
weight buffers.  The source keeps a single `self._kernel` attribute whose
dtype changes on quantization; the embedding splits it into the
full-precision buffer `kernel_fp` and the integer buffer `kernel_q`, with
`quantization_mode` selecting which one is live. -/
structure DenseState where
  units : Nat
  built : Bool := false
  use_bias : Bool := true
  has_kernel_constraint : Bool := false
  quantization_mode : Option QMode := none
  is_quantized : Bool := false
  kernel_fp : List (List ℚ) := []
  kernel_q : List (List Int) := []
  kernel_scale : List ℚ := []
  kernel_trainable : Bool := true
  orig_input_dim : Option Nat := none
  bias : Option (List ℚ) := none
  lora_enabled : Bool := false
  lora_rank : Nat := 0
  lora_alpha : ℚ := 0
  lora_kernel_a : List (List ℚ) := []
  lora_kernel_b : List (List ℚ) := []
  f8 : Float8State := ⟨1, [], 1, [], 1, []⟩
deriving DecidableEq, Repr

/-- The live base weight buffer `self._kernel`, viewed as a rational
matrix (quantized buffers are integer-valued). -/
def baseKernel (st : DenseState) : List (List ℚ) :=
  match st.quantization_mode with
  | some QMode.int8 => castM st.kernel_q
  | some QMode.int4 => castM st.kernel_q
  | _ => st.kernel_fp

/-- The `kernel` property (source lines 138-148): raises (`none`) before
build; with LoRA enabled returns
`self._kernel + (lora_alpha / lora_rank) * (lora_kernel_a @ lora_kernel_b)`. -/
def DenseState.kernel (st : DenseState) : Option (List (List ℚ)) :=
  if st.built = false then none
  else if st.lora_enabled then
    some (addM (baseKernel st)
      (smulM (st.lora_alpha / (st.lora_rank : ℚ))
        (matmul st.lora_kernel_a st.lora_kernel_b)))
  else some (baseKernel st)

/-- `Dense._int8_build`: zero int8 kernel of the original shape, one unit
scale per output channel, kernel non-trainable. -/
def _int8_build (st : DenseState) (kernel_shape : Nat × Nat) : DenseState :=
  { st with
    kernel_q := zerosZ kernel_shape.1 kernel_shape.2
    kernel_scale := List.replicate st.units 1
    kernel_trainable := false }

/-- `Dense._int4_build`: the stored kernel has `ceil(input_dim/2)` rows
(two int4 values per int8 byte); the original `input_dim` is recorded in
`_orig_input_dim` for unpacking at runtime. -/
def _int4_build (st : DenseState) (kernel_shape : Nat × Nat) : DenseState :=
  let packed_rows := (kernel_shape.1 + 1) / 2
  { st with
    kernel_q := zerosZ packed_rows kernel_shape.2
    kernel_scale := List.replicate st.units 1
    kernel_trainable := false
    orig_input_dim := some kernel_shape.1 }

/-- Default amax history length of `QuantizedFloat8DTypePolicy`
(the dtype-policy module is not under `src/`; the value is the framework
default). -/
def default_amax_history_length : Nat := 1024

/-- `Dense._float8_build`: six buffers, scales initialized to ones and
histories to zeros. -/
def _float8_build (st : DenseState) : DenseState :=
  { st with
    f8 := { inputs_scale := 1
            inputs_amax_history := List.replicate default_amax_history_length 0
            kernel_scale := 1
            kernel_amax_history := List.replicate default_amax_history_length 0
            outputs_grad_scale := 1
            outputs_grad_amax_history :=
              List.replicate default_amax_history_length 0 } }

/-- `Dense.quantized_build` for a valid mode (its invalid-mode raise is
reachable only through `Dense.quantize`, which is modelled below). -/
def quantized_build (st : DenseState) (kernel_shape : Nat × Nat)
    (mode : QMode) : DenseState :=
  let st' := match mode with
    | QMode.int8 => _int8_build st kernel_shape
    | QMode.int4 => _int4_build st kernel_shape
    | QMode.float8 => _float8_build st
  { st' with is_quantized := true }

/-- `Dense.enable_lora(rank, lora_alpha, a_initializer, b_initializer)`
(source lines 163-214).  The three precondition checks run in source
order; on success factor A gets shape `(input_dim_for_lora, rank)` and
factor B shape `(rank, self.kernel.shape[1])`, the base kernel is marked
non-trainable and `lora_alpha` defaults to `rank`.  The initializer
callables are opaque parameters (`a_init`, `b_init`) mapping a shape to a
matrix; the source defaults are `"he_uniform"` and `"zeros"`. -/
def enable_lora (st : DenseState) (rank : Nat) (alpha : Option ℚ)
    (a_init b_init : Nat → Nat → List (List ℚ)) : Except String DenseState :=
  if st.has_kernel_constraint then
    Except.error "Lora is incompatible with kernel constraints."
  else if st.built = false then
    Except.error "Cannot enable lora on a layer that isn't yet built."
  else if st.lora_enabled then
    Except.error "lora is already enabled. This can only be done once per layer."
  else
    -- `self.kernel` here is the base buffer (LoRA is still disabled).
    let input_dim_for_lora :=
      if st.quantization_mode = some QMode.int4 ∧ st.orig_input_dim.isSome
      then st.orig_input_dim.getD 0
      else (baseKernel st).length
    Except.ok { st with
      lora_kernel_a := a_init input_dim_for_lora rank
      lora_kernel_b := b_init rank (ncols (baseKernel st))
      kernel_trainable := false
      lora_enabled := true
      lora_rank := rank
      lora_alpha := alpha.getD (rank : ℚ) }

/-- The `"zeros"` initializer (the `b_initializer` default). -/
def zerosInitFn (m n : Nat) : List (List ℚ) := zerosM m n

/-- A mode string passed to `Dense.quantize`: a supported mode or any
other string. -/
inductive MMode | int8 | int4 | float8 | unsupported
deriving DecidableEq, Repr

/-- `Dense.quantize(mode)` (source lines 620-658), as a state transition
that also reports the raised error, if any, alongside the state as it
stood when the error was raised.  The source deletes `self._kernel` and
rebuilds inside the branch of a supported mode; the only raise
(`_quantization_mode_error`) happens before any buffer is touched. -/
def Dense.quantize (st : DenseState) (mode : MMode) :
    DenseState × Option String :=
  let kernel_shape := (st.kernel_fp.length, ncols st.kernel_fp)
  match mode with
  | MMode.int8 =>
    let q := abs_max_quantize st.kernel_fp (-127) 127
    let st1 := { st with kernel_fp := [] }       -- del self._kernel
    let st2 := quantized_build st1 kernel_shape QMode.int8
    ({ st2 with
        kernel_q := q.1
        kernel_scale := q.2
        quantization_mode := some QMode.int8 }, none)
  | MMode.int4 =>
    let q := abs_max_quantize st.kernel_fp (-8) 7
    let packed := pack_int4 q.1
    let st1 := { st with kernel_fp := [] }       -- del self._kernel
    let st2 := quantized_build st1 kernel_shape QMode.int4
    ({ st2 with
        kernel_q := packed
        kernel_scale := q.2
        quantization_mode := some QMode.int4 }, none)
  | MMode.float8 =>
    ({ quantized_build st kernel_shape QMode.float8 with
        quantization_mode := some QMode.float8 }, none)
  | MMode.unsupported =>
    (st, some "Invalid quantization mode.")

/-- Transpose via column extraction (`ops.transpose`). -/
def transposeM (M : List (List ℚ)) : List (List ℚ) :=
  (List.range (ncols M)).map (fun j => column M j)

/-- The backward function of `Dense._int8_call.matmul_with_inputs_gradient`
(source lines 444-452): gradient w.r.t. the inputs is
`upstream @ transpose(cast(kernel) / kernel_scale)`; the kernel and the
scale get no gradient. -/
def int8_grad_fn (kernel : List (List Int)) (kernel_scale : List ℚ)
    (upstream : List (List ℚ)) :
    List (List ℚ) × Option (List (List ℚ)) × Option (List ℚ) :=
  let float_kernel := kernel.map
    (fun row => List.zipWith (fun (v : Int) s => (v : ℚ) / s) row kernel_scale)
  (matmul upstream (transposeM float_kernel), none, none)

/-- The backward function of `Dense._int4_call.matmul_with_inputs_gradient`
(source lines 495-503): same as int8 after unpacking the packed kernel to
`_orig_input_dim` rows. -/
def int4_grad_fn (kernel : List (List Int)) (orig_input_dim : Nat)
    (kernel_scale : List ℚ) (upstream : List (List ℚ)) :
    List (List ℚ) × Option (List (List ℚ)) × Option (List ℚ) :=
  let unpacked_kernel := unpack_int4 kernel orig_input_dim
  let float_kernel := unpacked_kernel.map
    (fun row => List.zipWith (fun (v : Int) s => (v : ℚ) / s) row kernel_scale)
  (matmul upstream (transposeM float_kernel), none, none)

/-- Forward value of `Dense._int4_call` (source lines 476-527): unpack the
packed kernel to `_orig_input_dim` rows, per-row abs-max quantize the
inputs, integer matmul, divide by `inputs_scale * kernel_scale`
(broadcast over channels), add the LoRA delta when enabled, then the
bias.  The opaque activation is the identity (`activation=None`). -/
def int4_call (st : DenseState) (inputs : List (List ℚ)) : List (List ℚ) :=
  let unpacked := castM (unpack_int4 st.kernel_q (st.orig_input_dim.getD 0))
  let qpairs := inputs.map absMaxQuantizeRow
  let qmat := qpairs.map (fun p => p.1.map (fun (v : Int) => (v : ℚ)))
  let x0 := matmul qmat unpacked
  let x1 := List.zipWith (fun (p : List Int × ℚ) xrow =>
      List.zipWith (fun xj sj => xj / (p.2 * sj)) xrow st.kernel_scale)
    qpairs x0
  let x2 := if st.lora_enabled then
      addM x1 (smulM (st.lora_alpha / (st.lora_rank : ℚ))
        (matmul (matmul inputs st.lora_kernel_a) st.lora_kernel_b))
    else x1
  match st.bias with
  | some b => x2.map (fun row => List.zipWith (· + ·) row b)
  | none => x2

/-- State effect of one `Dense._float8_call` (source lines 529-618).  The
closures return `None` in place of the scale/history updates when
`training` is false; the updates of the output-gradient pair are produced
by the backward function, which runs only during training, so they take
the upstream gradient (`upstream`) as an explicit operand.  The returned
state applies every non-`None` update to the corresponding buffer. -/
def float8_call (st : DenseState) (inputs : List (List ℚ)) (training : Bool)
    (upstream : List (List ℚ)) : List (List ℚ) × DenseState :=
  let new_inputs_scale := if training then
      some (compute_float8_scale (maxOfHist st.f8.inputs_amax_history)
        st.f8.inputs_scale float8_e4m3_max)
    else none
  let new_inputs_hist := if training then
      some (compute_float8_amax_history inputs st.f8.inputs_amax_history)
    else none
  let new_kernel_scale := if training then
      some (compute_float8_scale (maxOfHist st.f8.kernel_amax_history)
        st.f8.kernel_scale float8_e4m3_max)
    else none
  let new_kernel_hist := if training then
      some (compute_float8_amax_history st.kernel_fp
        st.f8.kernel_amax_history)
    else none
  let new_og_scale := if training then
      some (compute_float8_scale (maxOfHist st.f8.outputs_grad_amax_history)
        st.f8.outputs_grad_scale float8_e5m2_max)
    else none
  let new_og_hist := if training then
      some (compute_float8_amax_history upstream
        st.f8.outputs_grad_amax_history)
    else none
  let qdqM := fun (M : List (List ℚ)) (s : ℚ) =>
    M.map (fun row => row.map (fun x => quantize_and_dequantize x s))
  let x := matmul (qdqM inputs st.f8.inputs_scale)
    (qdqM st.kernel_fp st.f8.kernel_scale)
  let x := match st.bias with
    | some b => x.map (fun row => List.zipWith (· + ·) row b)
    | none => x
  (x, { st with f8 := {
      inputs_scale := new_inputs_scale.getD st.f8.inputs_scale
      inputs_amax_history := new_inputs_hist.getD st.f8.inputs_amax_history
      kernel_scale := new_kernel_scale.getD st.f8.kernel_scale
      kernel_amax_history := new_kernel_hist.getD st.f8.kernel_amax_history
      outputs_grad_scale := new_og_scale.getD st.f8.outputs_grad_scale
      outputs_grad_amax_history :=
        new_og_hist.getD st.f8.outputs_grad_amax_history } })

/-! ## Variable store and `load_own_variables` -/

/-- One stored numeric buffer: the store maps positional keys `"0"`,
`"1"`, ... to buffers of various ranks and dtypes. -/
inductive TVal
  | mat (m : List (List ℚ))
  | imat (m : List (List Int))
  | vec (v : List ℚ)
  | scal (x : ℚ)
deriving DecidableEq, Repr

/-- One entry of the `target_variables` list of `load_own_variables`. -/
inductive VarSlot
  | kernelFp | kernelQ | biasSlot | kscale
  | f8InScale | f8InHist | f8KScale | f8KHist | f8OgScale | f8OgHist
deriving DecidableEq, Repr

/-- The `target_variables` read order of `load_own_variables` (source
lines 249-263): `self._kernel`, then the bias when present, then the
mode-specific scale variables.  The LoRA factors are never read. -/
def target_slots (st : DenseState) : List VarSlot :=
  (match st.quantization_mode with
   | some QMode.int8 => [VarSlot.kernelQ]
   | some QMode.int4 => [VarSlot.kernelQ]
   | _ => [VarSlot.kernelFp])
  ++ (if st.use_bias then [VarSlot.biasSlot] else [])
  ++ (match st.quantization_mode with
      | some QMode.int8 => [VarSlot.kscale]
      | some QMode.int4 => [VarSlot.kscale]
      | some QMode.float8 =>
        [VarSlot.f8InScale, VarSlot.f8InHist, VarSlot.f8KScale,
         VarSlot.f8KHist, VarSlot.f8OgScale, VarSlot.f8OgHist]
      | none => [])

/-- `variable.assign(store[str(i)])` for one target variable.  A
dtype/rank mismatch would be rejected by the backend; that check is
outside this layer and is not modelled (the stored value is ignored). -/
def assign_slot (st : DenseState) (s : VarSlot) (v : TVal) : DenseState :=
  match s, v with
  | VarSlot.kernelFp, TVal.mat m => { st with kernel_fp := m }
  | VarSlot.kernelQ, TVal.imat m => { st with kernel_q := m }
  | VarSlot.biasSlot, TVal.vec b => { st with bias := some b }
  | VarSlot.kscale, TVal.vec ks => { st with kernel_scale := ks }
  | VarSlot.f8InScale, TVal.scal x =>
    { st with f8 := { st.f8 with inputs_scale := x } }
  | VarSlot.f8InHist, TVal.vec h =>
    { st with f8 := { st.f8 with inputs_amax_history := h } }
  | VarSlot.f8KScale, TVal.scal x =>
    { st with f8 := { st.f8 with kernel_scale := x } }
  | VarSlot.f8KHist, TVal.vec h =>
    { st with f8 := { st.f8 with kernel_amax_history := h } }
  | VarSlot.f8OgScale, TVal.scal x =>
    { st with f8 := { st.f8 with outputs_grad_scale := x } }
  | VarSlot.f8OgHist, TVal.vec h =>
    { st with f8 := { st.f8 with outputs_grad_amax_history := h } }
  | _, _ => st

/-- Number of variables the layer owns
(`self._trainable_variables + self._non_trainable_variables`): kernel,
optional bias, the mode-specific scale variables, and the two LoRA
factors when LoRA is enabled; an unbuilt layer owns none. -/
def var_count (st : DenseState) : Nat :=
  if st.built then
    1 + (if st.use_bias then 1 else 0)
      + (match st.quantization_mode with
         | some QMode.int8 => 1
         | some QMode.int4 => 1
         | some QMode.float8 => 6
         | none => 0)
      + (if st.lora_enabled then 2 else 0)
  else 0

/-- Errors raised on the load path. -/
inductive LoadErr
  /-- "Layer ... was never built ... weights file lists N variables". -/
  | neverBuilt (actual : Nat)
  /-- "Layer ... expected N variables, but received M variables during
  loading": names both the expected and the actual count. -/
  | countMismatch (expected actual : Nat)
  /-- `KeyError` from `store[str(i)]` inside the assignment loop. -/
  | missingKey (i : Nat)
deriving DecidableEq, Repr

/-- `Dense._check_load_own_variables` (source lines 292-324). -/
def _check_load_own_variables (st : DenseState) (store : List TVal) :
    Option LoadErr :=
  if store.length ≠ var_count st then
    if var_count st = 0 ∧ st.built = false then
      some (LoadErr.neverBuilt store.length)
    else
      some (LoadErr.countMismatch (var_count st) store.length)
  else none

/-- The sequential assignment loop of `load_own_variables`; a missing key
aborts mid-loop, keeping the assignments already made. -/
def load_assign (st : DenseState) (i : Nat) (slots : List VarSlot)
    (store : List TVal) : DenseState × Option LoadErr :=
  match slots with
  | [] => (st, none)
  | s :: rest =>
    match store[i]? with
    | none => (st, some (LoadErr.missingKey i))
    | some v => load_assign (assign_slot st s v) (i + 1) rest store

/-- `Dense.load_own_variables(store)` (source lines 241-268): the count
check runs only when LoRA is disabled; after the base variables are
assigned, a LoRA-enabled layer overwrites both factors with zeros. -/
def load_own_variables (st : DenseState) (store : List TVal) :
    DenseState × Option LoadErr :=
  let err1 := if st.lora_enabled = false
    then _check_load_own_variables st store else none
  match err1 with
  | some e => (st, some e)
  | none =>
    if st.built = false then (st, none)
    else
      match load_assign st 0 (target_slots st) store with
      | (st', some e) => (st', some e)
      | (st', none) =>
        if st'.lora_enabled then
          ({ st' with
             lora_kernel_a :=
               zerosM st'.lora_kernel_a.length (ncols st'.lora_kernel_a)
             lora_kernel_b :=
               zerosM st'.lora_kernel_b.length (ncols st'.lora_kernel_b) },
           none)
        else (st', none)

/-! ## Claim theorems -/

/-- C1: for every int8 tensor `x` with values in `[-8, 7]`, unpacking the
packed tensor with the original row count returns `x` exactly,
`unpack_int4 (pack_int4 x) (rows x) = x`, including when `rows x` is odd
(the final unpaired row is packed against a zero partner and truncated
away on unpack, each nibble sign-extended). -/
theorem C1_unpack_pack_roundtrip (m : Nat) (x : List (List Int))
    (hrect : ∀ r ∈ x, r.length = m)
    (hrange : ∀ r ∈ x, ∀ v ∈ r, -8 ≤ v ∧ v ≤ 7) :
    unpack_int4 (pack_int4 x) x.length = x :=
  unpack_pack_aux m x hrect hrange

theorem C1_unpack_pack_roundtrip_witness :
    unpack_int4 (pack_int4 [[1, -8], [7, 0], [3, 2]]) 3
      = [[1, -8], [7, 0], [3, 2]] :=
  C1_unpack_pack_roundtrip 2 [[1, -8], [7, 0], [3, 2]]
    (by decide) (by decide)

theorem ncols_zerosM (m n : Nat) (hm : 0 < m) : ncols (zerosM m n) = n := by
  cases m with
  | zero => exact absurd hm (by simp)
  | succ k => simp [ncols, zerosM, List.replicate_succ]

/-- C2: the abs-max quantizer used by `Dense.quantize` never divides by
zero: every slice along the quantization axis whose maximum absolute
value is `0` gets scale `1`, and quantizing an all-zero weight matrix in
int8 mode (value range `[-127, 127]`) yields an all-zero quantized weight
with every per-channel scale equal to `1`. -/
theorem C2_abs_max_quantize_zero_guard :
    (∀ (W : List (List ℚ)) (lo hi : Int) (j : Nat), j < ncols W →
       absMaxVec (column W j) = 0 →
       (abs_max_quantize W lo hi).2.getD j 0 = 1)
    ∧ (∀ m n : Nat, 0 < m →
       abs_max_quantize (zerosM m n) (-127) 127
         = (zerosZ m n, List.replicate n 1)) := by
  constructor
  · intro W lo hi j hj hmax
    simp only [abs_max_quantize]
    rw [List.getD_eq_getElem?_getD, List.getElem?_map,
      List.getElem?_range hj]
    simp [hmax, scaleOf]
  · intro m n hm
    have hcols := ncols_zerosM m n hm
    have hscale : ∀ j, scaleOf (127 : ℚ)
        (absMaxVec (column (zerosM m n) j)) = 1 := by
      intro j
      rw [column_zerosM, absMaxVec_replicate_zero]
      simp [scaleOf]
    simp only [abs_max_quantize, hcols, zerosZ, Prod.mk.injEq]
    constructor
    · have hrow : ∀ r ∈ zerosM m n,
          (List.range n).map (fun j =>
            quantizeVal ((((List.range n).map (fun j => scaleOf (127:ℚ)
              (absMaxVec (column (zerosM m n) j)))).getD j 1))
              (-127) 127 (entry r j)) = List.replicate n 0 := by
        intro r hr
        have hr0 : r = List.replicate n 0 := by
          simp only [zerosM, List.mem_replicate] at hr
          exact hr.2
        subst hr0
        refine List.eq_replicate_iff.mpr ⟨by simp, ?_⟩
        intro b hb
        simp only [List.mem_map, List.mem_range] at hb
        obtain ⟨j, _, hjb⟩ := hb
        rw [← hjb, entry_replicate_zero]
        simp [quantizeVal]
      refine List.eq_replicate_iff.mpr ⟨by simp [zerosM], ?_⟩
      intro b hb
      simp only [List.mem_map] at hb
      obtain ⟨r, hr, hrb⟩ := hb
      rw [← hrb]
      exact hrow r hr
    · refine List.eq_replicate_iff.mpr ⟨by simp, ?_⟩
      intro b hb
      simp only [List.mem_map, List.mem_range] at hb
      obtain ⟨j, _, hjb⟩ := hb
      rw [← hjb]
      exact hscale j

theorem C2_abs_max_quantize_zero_guard_witness :
    (abs_max_quantize [[0, 0], [0, 0]] (-127) 127).2.getD 0 0 = 1
    ∧ abs_max_quantize (zerosM 2 2) (-127) 127
        = (zerosZ 2 2, List.replicate 2 1) :=
  ⟨C2_abs_max_quantize_zero_guard.1 [[0, 0], [0, 0]] (-127) 127 0
      (by decide) (by decide),
   C2_abs_max_quantize_zero_guard.2 2 2 (by decide)⟩

theorem smulM_zerosM (c : ℚ) (a b : Nat) :
    smulM c (zerosM a b) = zerosM a b := by
  simp [smulM, zerosM, List.map_replicate]

theorem baseKernel_lora_update (st : DenseState) (A B : List (List ℚ))
    (r : Nat) (c : ℚ) (kt le : Bool) :
    baseKernel { st with
      lora_kernel_a := A
      lora_kernel_b := B
      kernel_trainable := kt
      lora_enabled := le
      lora_rank := r
      lora_alpha := c } = baseKernel st := rfl

/-- C3: immediately after `enable_lora(rank)` succeeds on a built layer
with the default zero initialization of factor B, the effective weight
equals the base weight exactly: the LoRA delta
`(alpha/rank) * (A @ B)` is exactly zero and the `kernel` property
returns the stored base kernel.  The shape hypotheses (`ha`, `hdim`,
`hrect`) say that the A-initializer honours its requested shape and that
the layer's buffers are well-formed. -/
theorem C3_enable_lora_keeps_kernel (st : DenseState) (rank : Nat)
    (alpha : Option ℚ) (a_init : Nat → Nat → List (List ℚ))
    (st' : DenseState) (hrank : 0 < rank)
    (ha : ∀ m n, (a_init m n).length = m)
    (hdim : (if st.quantization_mode = some QMode.int4 ∧
        st.orig_input_dim.isSome
      then st.orig_input_dim.getD 0
      else (baseKernel st).length) = (baseKernel st).length)
    (hrect : ∀ r ∈ baseKernel st, r.length = ncols (baseKernel st))
    (h : enable_lora st rank alpha a_init zerosInitFn = Except.ok st') :
    st'.kernel = some (baseKernel st) := by
  simp only [enable_lora] at h
  split_ifs at h with h1 h2 h3 h4
  case pos =>
    rw [Except.ok.injEq] at h
    subst h
    rw [if_pos h4] at hdim
    simp only [DenseState.kernel, zerosInitFn]
    rw [if_neg h2, if_pos trivial, baseKernel_lora_update, matmul_zerosM, ha,
      hdim, ncols_zerosM rank _ hrank, smulM_zerosM, addM_zeros _ _ hrect]
  case neg =>
    rw [Except.ok.injEq] at h
    subst h
    simp only [DenseState.kernel, zerosInitFn]
    rw [if_neg h2, if_pos trivial, baseKernel_lora_update, matmul_zerosM, ha,
      ncols_zerosM rank _ hrank, smulM_zerosM, addM_zeros _ _ hrect]

def aInitW (m n : Nat) : List (List ℚ) :=
  List.replicate m (List.replicate n 1)

def stBuilt : DenseState :=
  { units := 2, built := true, kernel_fp := [[1, 2], [3, 4]] }

theorem C3_enable_lora_keeps_kernel_witness :
    DenseState.kernel { stBuilt with
      lora_kernel_a := aInitW 2 1
      lora_kernel_b := zerosInitFn 1 2
      kernel_trainable := false
      lora_enabled := true
      lora_rank := 1
      lora_alpha := 1 } = some [[1, 2], [3, 4]] :=
  C3_enable_lora_keeps_kernel stBuilt 1 none aInitW _
    (by decide) (fun m n => by simp [aInitW]) rfl (by decide) rfl

/-- C5: a `Dense.quantize` call fails exactly on an unsupported mode, and
a failing call leaves every prior buffer unchanged (the raise happens
before the old kernel is deleted and before any new buffer is built). -/
theorem C5_quantize_atomic (st : DenseState) (mode : MMode) :
    ((Dense.quantize st mode).2.isSome ↔ mode = MMode.unsupported)
    ∧ ((Dense.quantize st mode).2.isSome → (Dense.quantize st mode).1 = st) := by
  cases mode <;> simp [Dense.quantize]

theorem C5_quantize_atomic_witness :
    (Dense.quantize stBuilt MMode.unsupported).1 = stBuilt :=
  (C5_quantize_atomic stBuilt MMode.unsupported).2 rfl

/-- C6: in float8 mode with `training = false` the forward call leaves all
six rescaling buffers unchanged (the update closures return `None`), so
two consecutive inference calls observe identical scale/history state. -/
theorem C6_float8_inference_frame (st : DenseState)
    (x y u v : List (List ℚ)) :
    (float8_call st x false u).2.f8 = st.f8
    ∧ (float8_call (float8_call st x false u).2 y false v).2.f8 = st.f8 :=
  ⟨rfl, rfl⟩

/-- C7: for int8 and int4 forward calls, the custom backward function
computes the gradient w.r.t. the inputs as
`upstream @ transpose(dequantized kernel)` — the dequantized kernel being
the (unpacked, for int4) integer kernel cast to the compute dtype and
divided by the per-channel scale — and returns `None` for the gradients
of the quantized kernel and of the kernel scale. -/
theorem C7_quantized_grad_uses_dequantized_kernel
    (kernel : List (List Int)) (scale : List ℚ)
    (upstream : List (List ℚ)) (d : Nat) :
    int8_grad_fn kernel scale upstream
      = (matmul upstream (transposeM (dequantize kernel scale)), none, none)
    ∧ int4_grad_fn kernel d scale upstream
      = (matmul upstream
          (transposeM (dequantize (unpack_int4 kernel d) scale)),
         none, none) :=
  ⟨rfl, rfl⟩

/-- C8: `enable_lora` raises exactly when a kernel constraint is
configured, the layer is not yet built, or LoRA is already enabled (a
second enable fails cleanly); otherwise it succeeds and marks the base
kernel non-trainable. -/
theorem C8_enable_lora_preconditions (st : DenseState) (rank : Nat)
    (alpha : Option ℚ) (a_init b_init : Nat → Nat → List (List ℚ)) :
    ((∃ e, enable_lora st rank alpha a_init b_init = Except.error e)
      ↔ (st.has_kernel_constraint = true ∨ st.built = false
          ∨ st.lora_enabled = true))
    ∧ (∀ st', enable_lora st rank alpha a_init b_init = Except.ok st' →
        st'.kernel_trainable = false) := by
  by_cases hc : st.has_kernel_constraint <;>
    by_cases hb : st.built <;>
    by_cases hl : st.lora_enabled <;>
    constructor <;>
    simp_all [enable_lora]

def stW8' : DenseState :=
  { stBuilt with
    lora_kernel_a := aInitW 2 1
    lora_kernel_b := zerosInitFn 1 2
    kernel_trainable := false
    lora_enabled := true
    lora_rank := 1
    lora_alpha := 1 }

theorem C8_enable_lora_preconditions_witness :
    stW8'.kernel_trainable = false :=
  (C8_enable_lora_preconditions stBuilt 1 none aInitW zerosInitFn).2
    stW8' rfl

theorem assign_slot_keeps_lora (st : DenseState) (s : VarSlot) (v : TVal) :
    (assign_slot st s v).lora_kernel_a = st.lora_kernel_a
    ∧ (assign_slot st s v).lora_kernel_b = st.lora_kernel_b
    ∧ (assign_slot st s v).lora_enabled = st.lora_enabled := by
  cases s <;> cases v <;> simp [assign_slot]

theorem load_assign_keeps_lora (slots : List VarSlot) :
    ∀ (st : DenseState) (i : Nat) (store : List TVal),
      (load_assign st i slots store).1.lora_kernel_a = st.lora_kernel_a
      ∧ (load_assign st i slots store).1.lora_kernel_b = st.lora_kernel_b
      ∧ (load_assign st i slots store).1.lora_enabled = st.lora_enabled := by
  induction slots with
  | nil => intro st i store; simp [load_assign]
  | cons s rest ih =>
    intro st i store
    simp only [load_assign]
    cases store[i]? with
    | none => simp
    | some v =>
      simp only
      have h1 := ih (assign_slot st s v) (i + 1) store
      have h2 := assign_slot_keeps_lora st s v
      exact ⟨h1.1.trans h2.1, h1.2.1.trans h2.2.1, h1.2.2.trans h2.2.2⟩

/-- A LoRA-enabled built layer on which a count mismatch goes undetected:
one kernel variable, no bias, two LoRA factors (`var_count = 3`). -/
def stL9 : DenseState :=
  { units := 1, built := true, use_bias := false, kernel_fp := [[1]],
    lora_enabled := true, lora_rank := 1, lora_alpha := 1,
    lora_kernel_a := [[1]], lora_kernel_b := [[1]] }

/-- A store with four variables — more than `stL9` owns. -/
def storeL9 : List TVal :=
  [TVal.mat [[5]], TVal.vec [1], TVal.vec [2], TVal.scal 3]

/-- C9 counterexample: with LoRA enabled the count check of
`load_own_variables` is skipped, so a store whose variable count differs
from the layer's does not fail with a count-mismatch error — the load
completes silently. -/
theorem C9_counterexample_lora_skips_check :
    (load_own_variables stL9 storeL9).2 = none
    ∧ storeL9.length ≠ var_count stL9 := by
  constructor
  · rfl
  · decide

/-- C9 (amended): when LoRA is *not* enabled, a store whose variable
count does not match the count expected for the current mode/bias
combination makes loading fail with a count-mismatch error naming the
expected and the actual counts; when LoRA is enabled the check is
skipped. -/
theorem C9_load_count_mismatch (st : DenseState) (store : List TVal)
    (hl : st.lora_enabled = false) (hb : st.built = true)
    (hc : store.length ≠ var_count st) :
    (load_own_variables st store).2
      = some (LoadErr.countMismatch (var_count st) store.length) := by
  simp [load_own_variables, _check_load_own_variables, hl, hb, hc]

theorem C9_load_count_mismatch_witness :
    (load_own_variables stBuilt
        [TVal.mat [[7, 7], [7, 7]], TVal.vec [1], TVal.vec [2],
         TVal.scal 3]).2
      = some (LoadErr.countMismatch 2 4) :=
  C9_load_count_mismatch stBuilt
    [TVal.mat [[7, 7], [7, 7]], TVal.vec [1], TVal.vec [2], TVal.scal 3]
    rfl rfl (by decide)

/-- C10: on every successful load into a built, LoRA-enabled layer,
`load_own_variables` overwrites both LoRA factors with all-zero tensors
of their own shapes, regardless of the store's contents — previously
trained factor values are discarded, not restored. -/
theorem C10_load_zeroes_lora_factors (st : DenseState) (store : List TVal)
    (st' : DenseState) (hl : st.lora_enabled = true) (hb : st.built = true)
    (h : load_own_variables st store = (st', none)) :
    st'.lora_kernel_a
        = zerosM st.lora_kernel_a.length (ncols st.lora_kernel_a)
    ∧ st'.lora_kernel_b
        = zerosM st.lora_kernel_b.length (ncols st.lora_kernel_b) := by
  simp only [load_own_variables, hl, hb] at h
  simp only [Bool.true_eq_false, if_false, ite_false] at h
  rcases hla : load_assign st 0 (target_slots st) store with ⟨st2, e⟩
  rw [hla] at h
  have hk := load_assign_keeps_lora (target_slots st) st 0 store
  rw [hla] at hk
  cases e with
  | some err => simp at h
  | none =>
    have hen : st2.lora_enabled = true := by rw [hk.2.2]; exact hl
    simp only [hen, if_true, Prod.mk.injEq] at h
    rw [← h.1]
    rw [hk.1, hk.2.1]
    exact ⟨rfl, rfl⟩

theorem C10_load_zeroes_lora_factors_witness :
    (load_own_variables stL9 storeL9).1.lora_kernel_a = [[0]]
    ∧ (load_own_variables stL9 storeL9).1.lora_kernel_b = [[0]] :=
  C10_load_zeroes_lora_factors stL9 storeL9
    (load_own_variables stL9 storeL9).1 rfl rfl rfl

theorem mem_zipWith {α β γ : Type} {f : α → β → γ} :
    ∀ {l1 : List α} {l2 : List β} {c : γ}, c ∈ List.zipWith f l1 l2 →
      ∃ a, a ∈ l1 ∧ ∃ b, b ∈ l2 ∧ c = f a b := by
  intro l1
  induction l1 with
  | nil => intro l2 c h; simp at h
  | cons a t ih =>
    intro l2 c h
    cases l2 with
    | nil => simp at h
    | cons b t2 =>
      rw [List.zipWith_cons_cons] at h
      rcases List.mem_cons.mp h with h1 | h2
      · exact ⟨a, by simp, b, by simp, h1⟩
      · obtain ⟨a', ha', b', hb', rfl⟩ := ih h2
        exact ⟨a', by simp [ha'], b', by simp [hb'], rfl⟩

theorem ncols_of_rect {α : Type} (M : List (List α)) (u : Nat) (hne : M ≠ [])
    (h : ∀ r ∈ M, r.length = u) : ncols M = u := by
  cases M with
  | nil => exact absurd rfl hne
  | cons r t => simpa [ncols] using h r (by simp)

theorem ncols_castM (M : List (List Int)) : ncols (castM M) = ncols M := by
  cases M with
  | nil => rfl
  | cons r t =>
    show (r.map (fun (v : Int) => (v : ℚ))).length = r.length
    rw [List.length_map]

theorem castM_row_length (M : List (List Int)) (u : Nat)
    (h : ∀ r ∈ M, r.length = u) : ∀ r ∈ castM M, r.length = u := by
  intro r hr
  simp only [castM, List.mem_map] at hr
  obtain ⟨row, hrow, hh⟩ := hr
  rw [← hh, List.length_map]
  exact h row hrow

theorem amq_length (W : List (List ℚ)) (lo hi : Int) :
    (abs_max_quantize W lo hi).1.length = W.length := by
  simp [abs_max_quantize]

theorem amq_row_length (W : List (List ℚ)) (lo hi : Int) :
    ∀ r ∈ (abs_max_quantize W lo hi).1, r.length = ncols W := by
  intro r h
  simp only [abs_max_quantize, List.mem_map] at h
  obtain ⟨row, _, hh⟩ := h
  rw [← hh]
  simp

theorem amq_scale_length (W : List (List ℚ)) (lo hi : Int) :
    (abs_max_quantize W lo hi).2.length = ncols W := by
  simp [abs_max_quantize]

theorem quantizeVal_mem (s : ℚ) (lo hi : Int) (x : ℚ) (h : lo ≤ hi) :
    lo ≤ quantizeVal s lo hi x ∧ quantizeVal s lo hi x ≤ hi := by
  unfold quantizeVal
  exact ⟨le_max_left _ _, max_le h (min_le_left _ _)⟩

theorem amq_range (W : List (List ℚ)) (lo hi : Int) (h : lo ≤ hi) :
    ∀ r ∈ (abs_max_quantize W lo hi).1, ∀ v ∈ r, lo ≤ v ∧ v ≤ hi := by
  intro r hr v hv
  simp only [abs_max_quantize, List.mem_map] at hr
  obtain ⟨row, _, hh⟩ := hr
  rw [← hh] at hv
  simp only [List.mem_map, List.mem_range] at hv
  obtain ⟨j, _, hj⟩ := hv
  rw [← hj]
  exact quantizeVal_mem _ lo hi _ h

theorem pack_rect (u : Nat) :
    ∀ (M : List (List Int)), (∀ r ∈ M, r.length = u) →
      ∀ r ∈ pack_int4 M, r.length = u
  | [], _, r, hr => by simp [pack_int4] at hr
  | [r0], h, r, hr => by
    simp only [pack_int4, List.mem_cons, List.not_mem_nil, or_false] at hr
    subst hr
    simp [h r0 (by simp)]
  | r0 :: r1 :: rest, h, r, hr => by
    simp only [pack_int4, List.mem_cons] at hr
    rcases hr with hr | hr
    · subst hr
      rw [List.length_zipWith, h r0 (by simp), h r1 (by simp)]
      exact Nat.min_self u
    · exact pack_rect u rest (fun q hq => h q (by simp [hq])) r hr

theorem pack_ne_nil : ∀ (M : List (List Int)), M ≠ [] → pack_int4 M ≠ []
  | [], h => absurd rfl h
  | [_], _ => by simp [pack_int4]
  | _ :: _ :: _, _ => by simp [pack_int4]

/-- Shapes of the `_int4_call` forward pass, for a layer whose unpacked
kernel is a rectangular matrix with `u` columns. -/
theorem int4_call_shapes (st : DenseState) (inputs : List (List ℚ)) (u : Nat)
    (hU : ∀ row ∈ unpack_int4 st.kernel_q (st.orig_input_dim.getD 0),
      row.length = u)
    (hUne : unpack_int4 st.kernel_q (st.orig_input_dim.getD 0) ≠ [])
    (hks : st.kernel_scale.length = u)
    (hB : st.lora_enabled = true → ncols st.lora_kernel_b = u)
    (hbias : st.bias = none ∨ ∃ bv, st.bias = some bv ∧ bv.length = u) :
    (int4_call st inputs).length = inputs.length
    ∧ ∀ row ∈ int4_call st inputs, row.length = u := by
  have hncolsU :
      ncols (castM (unpack_int4 st.kernel_q (st.orig_input_dim.getD 0)))
        = u := by
    rw [ncols_castM]
    exact ncols_of_rect _ u hUne hU
  have hX1 : ∀ row ∈ List.zipWith
      (fun (p : List Int × ℚ) xrow =>
        List.zipWith (fun xj sj => xj / (p.2 * sj)) xrow st.kernel_scale)
      (inputs.map absMaxQuantizeRow)
      (matmul ((inputs.map absMaxQuantizeRow).map
          (fun p => p.1.map (fun (v : Int) => (v : ℚ))))
        (castM (unpack_int4 st.kernel_q (st.orig_input_dim.getD 0)))),
      row.length = u := by
    intro row hrow
    obtain ⟨p, _, xrow, hx, rfl⟩ := mem_zipWith hrow
    rw [List.length_zipWith, matmul_row_length _ _ xrow hx, hncolsU, hks]
    exact Nat.min_self u
  have hX1len : (List.zipWith
      (fun (p : List Int × ℚ) xrow =>
        List.zipWith (fun xj sj => xj / (p.2 * sj)) xrow st.kernel_scale)
      (inputs.map absMaxQuantizeRow)
      (matmul ((inputs.map absMaxQuantizeRow).map
          (fun p => p.1.map (fun (v : Int) => (v : ℚ))))
        (castM (unpack_int4 st.kernel_q (st.orig_input_dim.getD 0))))).length
      = inputs.length := by
    simp only [List.length_zipWith, matmul_length, List.length_map,
      Nat.min_self]
  have hLora : st.lora_enabled = true →
      ∀ row ∈ smulM (st.lora_alpha / (st.lora_rank : ℚ))
        (matmul (matmul inputs st.lora_kernel_a) st.lora_kernel_b),
      row.length = u := by
    intro hl row hrow
    simp only [smulM, List.mem_map] at hrow
    obtain ⟨r0, hr0, hh⟩ := hrow
    rw [← hh, List.length_map, matmul_row_length _ _ r0 hr0]
    exact hB hl
  cases hl : st.lora_enabled with
  | false =>
    rcases hbias with hb | ⟨bv, hb, hbl⟩
    all_goals
      simp only [int4_call, hl, Bool.false_eq_true, if_false, hb]
    · exact ⟨hX1len, hX1⟩
    · constructor
      · rw [List.length_map]
        exact hX1len
      · intro row hrow
        simp only [List.mem_map] at hrow
        obtain ⟨r0, hr0, hh⟩ := hrow
        rw [← hh, List.length_zipWith, hX1 r0 hr0, hbl]
        exact Nat.min_self u
  | true =>
    have hadd : ∀ row ∈ addM
        (List.zipWith (fun (p : List Int × ℚ) xrow =>
          List.zipWith (fun xj sj => xj / (p.2 * sj)) xrow st.kernel_scale)
          (inputs.map absMaxQuantizeRow)
          (matmul ((inputs.map absMaxQuantizeRow).map
              (fun p => p.1.map (fun (v : Int) => (v : ℚ))))
            (castM (unpack_int4 st.kernel_q (st.orig_input_dim.getD 0)))))
        (smulM (st.lora_alpha / (st.lora_rank : ℚ))
          (matmul (matmul inputs st.lora_kernel_a) st.lora_kernel_b)),
        row.length = u := by
      intro row hrow
      obtain ⟨a, ha, b, hb2, rfl⟩ := mem_zipWith hrow
      rw [List.length_zipWith, hX1 a ha, hLora hl b hb2]
      exact Nat.min_self u
    have haddlen : (addM
        (List.zipWith (fun (p : List Int × ℚ) xrow =>
          List.zipWith (fun xj sj => xj / (p.2 * sj)) xrow st.kernel_scale)
          (inputs.map absMaxQuantizeRow)
          (matmul ((inputs.map absMaxQuantizeRow).map
              (fun p => p.1.map (fun (v : Int) => (v : ℚ))))
            (castM (unpack_int4 st.kernel_q (st.orig_input_dim.getD 0)))))
        (smulM (st.lora_alpha / (st.lora_rank : ℚ))
          (matmul (matmul inputs st.lora_kernel_a)
            st.lora_kernel_b))).length = inputs.length := by
      rw [addM, List.length_zipWith, hX1len]
      rw [smulM, List.length_map, matmul_length, matmul_length]
      exact Nat.min_self _
    rcases hbias with hb | ⟨bv, hb, hbl⟩
    all_goals
      simp only [int4_call, hl, if_true, hb, addM]
    · exact ⟨by rw [← addM]; exact haddlen, by rw [← addM]; exact hadd⟩
    · constructor
      · rw [List.length_map, ← addM]
        exact haddlen
      · intro row hrow
        simp only [List.mem_map] at hrow
        obtain ⟨r0, hr0, hh⟩ := hrow
        rw [← addM] at hr0
        rw [← hh, List.length_zipWith, hadd r0 hr0, hbl]
        exact Nat.min_self u

/-- C4: for an int4-quantized layer, `enable_lora` sizes factor A by the
retained original (unpacked) input dimension — `input_dim` rows, not the
packed buffer's `ceil(input_dim/2)` rows (this holds for odd `input_dim`
in particular).  The unpacked kernel recovers exactly `input_dim` rows,
so the inner dimensions of the forward matmul agree with a batch of shape
`(n, input_dim)`, and the forward pass returns a batch of shape
`(n, units)`. -/
theorem C4_enable_lora_int4_orig_input_dim (st : DenseState) (r : Nat)
    (alpha : Option ℚ) (a_init : Nat → Nat → List (List ℚ))
    (stL : DenseState) (inputs : List (List ℚ))
    (hd : 0 < st.kernel_fp.length)
    (hr : 0 < r)
    (ha_len : (a_init st.kernel_fp.length r).length = st.kernel_fp.length)
    (hu : ncols st.kernel_fp = st.units)
    (hbias : st.bias = none
      ∨ ∃ bv, st.bias = some bv ∧ bv.length = ncols st.kernel_fp)
    (hL : enable_lora (Dense.quantize st MMode.int4).1 r alpha a_init
        zerosInitFn = Except.ok stL) :
    stL.lora_kernel_a = a_init st.kernel_fp.length r
    ∧ stL.lora_kernel_a.length = st.kernel_fp.length
    ∧ (unpack_int4 stL.kernel_q (stL.orig_input_dim.getD 0)).length
        = st.kernel_fp.length
    ∧ (int4_call stL inputs).length = inputs.length
    ∧ ∀ row ∈ int4_call stL inputs, row.length = st.units := by
  have hq1len : (abs_max_quantize st.kernel_fp (-8) 7).1.length
      = st.kernel_fp.length := amq_length st.kernel_fp (-8) 7
  have hq1rect : ∀ row ∈ (abs_max_quantize st.kernel_fp (-8) 7).1,
      row.length = ncols st.kernel_fp := amq_row_length st.kernel_fp (-8) 7
  have hq1range := amq_range st.kernel_fp (-8) 7 (by decide)
  have hq1ne : (abs_max_quantize st.kernel_fp (-8) 7).1 ≠ [] := by
    have hpos : 0 < (abs_max_quantize st.kernel_fp (-8) 7).1.length := by
      rw [hq1len]
      exact hd
    exact List.length_pos.mp hpos
  have hrt : unpack_int4 (pack_int4 (abs_max_quantize st.kernel_fp (-8) 7).1)
      st.kernel_fp.length = (abs_max_quantize st.kernel_fp (-8) 7).1 := by
    have h2 := unpack_pack_aux (ncols st.kernel_fp)
      (abs_max_quantize st.kernel_fp (-8) 7).1 hq1rect hq1range
    rwa [hq1len] at h2
  have hU : ∀ row ∈ unpack_int4
      (pack_int4 (abs_max_quantize st.kernel_fp (-8) 7).1)
      st.kernel_fp.length, row.length = ncols st.kernel_fp := by
    rw [hrt]
    exact hq1rect
  have hUne : unpack_int4
      (pack_int4 (abs_max_quantize st.kernel_fp (-8) 7).1)
      st.kernel_fp.length ≠ [] := by
    rw [hrt]
    exact hq1ne
  have hks : (abs_max_quantize st.kernel_fp (-8) 7).2.length
      = ncols st.kernel_fp := amq_scale_length st.kernel_fp (-8) 7
  have hB : ncols (zerosM r
      (ncols (castM (pack_int4 (abs_max_quantize st.kernel_fp (-8) 7).1))))
      = ncols st.kernel_fp := by
    rw [ncols_zerosM r _ hr, ncols_castM]
    exact ncols_of_rect _ _ (pack_ne_nil _ hq1ne)
      (pack_rect _ _ hq1rect)
  simp only [enable_lora] at hL
  split_ifs at hL with h1 h2 h3 h4
  case pos =>
    rw [Except.ok.injEq] at hL
    have hA : stL.lora_kernel_a = a_init st.kernel_fp.length r := by
      rw [← hL]
      rfl
    have hkq : stL.kernel_q
        = pack_int4 (abs_max_quantize st.kernel_fp (-8) 7).1 := by
      rw [← hL]
      rfl
    have horig : stL.orig_input_dim = some st.kernel_fp.length := by
      rw [← hL]
      rfl
    have hlb : stL.lora_kernel_b = zerosM r
        (ncols (castM (pack_int4 (abs_max_quantize st.kernel_fp (-8) 7).1))) := by
      rw [← hL]
      rfl
    have hbias2 : stL.bias = st.bias := by
      rw [← hL]
      rfl
    have hks2 : stL.kernel_scale
        = (abs_max_quantize st.kernel_fp (-8) 7).2 := by
      rw [← hL]
      rfl
    have hshapes := int4_call_shapes stL inputs (ncols st.kernel_fp)
      (by rw [hkq, horig, Option.getD_some]; exact hU)
      (by rw [hkq, horig, Option.getD_some]; exact hUne)
      (by rw [hks2]; exact hks)
      (fun _ => by rw [hlb]; exact hB)
      (by rw [hbias2]; exact hbias)
    refine ⟨hA, ?_, ?_, hshapes.1, ?_⟩
    · rw [hA]
      exact ha_len
    · rw [hkq, horig, Option.getD_some, hrt]
      exact hq1len
    · intro row hrow
      rw [← hu]
      exact hshapes.2 row hrow
  case neg =>
    exact absurd ⟨rfl, rfl⟩ h4

def st4 : DenseState :=
  { units := 2, built := true, use_bias := false,
    kernel_fp := [[1, 2], [3, 4], [5, 6]] }

def stL4 : DenseState :=
  (enable_lora (Dense.quantize st4 MMode.int4).1 1 none aInitW
    zerosInitFn).toOption.getD { units := 0 }

theorem C4_enable_lora_int4_orig_input_dim_witness :
    stL4.lora_kernel_a = aInitW 3 1
    ∧ stL4.lora_kernel_a.length = 3
    ∧ (unpack_int4 stL4.kernel_q (stL4.orig_input_dim.getD 0)).length = 3
    ∧ (int4_call stL4 [[1, 0, 0], [0, 1, 0]]).length = 2
    ∧ ∀ row ∈ int4_call stL4 [[1, 0, 0], [0, 1, 0]], row.length = 2 :=
  C4_enable_lora_int4_orig_input_dim st4 1 none aInitW stL4
    [[1, 0, 0], [0, 1, 0]] (by decide) (by decide) (by decide) rfl
    (Or.inl rfl) rfl

end KerasDense
